import Mathlib

/-!
Verification of `Core/src/Tools/SurfaceArrayCreator.cpp` (ACTS).

Shallow embedding conventions:
* `Acts::Vector3D` becomes `Vec3` over `ℚ`; the external floating-point math
  functions consumed by the source (`cos`, `sin`, and the coordinate
  projections `atan2` / `perp` used inside the black-box `BinUtility`) are
  parameters, collected in a `CoordModel`.
* `const Acts::Surface*` becomes `Surface`: pointer identity is modelled by
  the `sid` field, `binningPosition(binR)` by the stored point `bpos`, and
  `associatedDetectorElement()` by `elem : Option ℕ` (detector elements are
  opaque identities, modelled as naturals).
* The nested `std::vector` grid `SurfaceGrid` (indexed `[i2][i1][i0]`)
  becomes a total function `ℕ → ℕ → ℕ → Option Surface` together with the
  explicit extents `(d2, d1, d0)` carried by `SurfaceArray`; a C++ loop that
  writes grid slots becomes a fold applying pointwise overrides.
* `Vector3D::mag()` comparisons are embedded through the squares: for
  non-negative reals `a < b ↔ a² < b²`, so the running minimum distance and
  the `10e10` sentinel of `completeBinning` are kept squared (`distSq`,
  `sentinelSq = (10e10)² = 10^22`).
-/

/-- 3D point (`Acts::Vector3D`), with rational coordinates. -/
structure Vec3 where
  x : ℚ
  y : ℚ
  z : ℚ
deriving DecidableEq

/-- A detector surface as consumed by the source: `sid` models pointer
identity, `bpos` the value of `binningPosition(binR)` (the radial binning
convention used at every call site), `elem` the (possibly null) associated
detector element. -/
structure Surface where
  sid : ℕ
  bpos : Vec3
  elem : Option ℕ
deriving DecidableEq

/-- Default surface used only as a `getD` fallback. -/
def dSurf : Surface := ⟨0, ⟨0, 0, 0⟩, none⟩

/-- Boundary kind of a binning axis (`Acts::open` / `Acts::closed`). -/
inductive BinningOption where
  | binOpen
  | binClosed
deriving DecidableEq

/-- Binning value kind (`Acts::binR`, `Acts::binPhi`, `Acts::binZ`). -/
inductive BinningValue where
  | binR
  | binPhi
  | binZ
deriving DecidableEq

/-- Modelled from the spec: the external real-valued math the source consumes.
`cosQ`/`sinQ` stand for `cos`/`sin` from the math library; `phiOf`/`rOf`
stand for the azimuth (`atan2`) and transverse-radius projections that the
black-box `BinUtility` applies to a 3D point. They are opaque parameters of
the whole construction. -/
structure CoordModel where
  cosQ : ℚ → ℚ
  sinQ : ℚ → ℚ
  phiOf : Vec3 → ℚ
  rOf : Vec3 → ℚ

/-- Modelled from the spec: one 1-D binned axis of the external `BinUtility`
(`Acts::BinningData` is not under `src/`): value range `[bmin, bmax)`,
`bins` bins, open (clamping) or closed (periodic) boundary, and the binning
value kind it projects on. -/
structure BinningData where
  bins : ℕ
  bmin : ℚ
  bmax : ℚ
  opt : BinningOption
  kind : BinningValue
deriving DecidableEq

/-- The coordinate of a point along a binning value kind. -/
def valueOf (cm : CoordModel) (k : BinningValue) (v : Vec3) : ℚ :=
  match k with
  | .binR => cm.rOf v
  | .binPhi => cm.phiOf v
  | .binZ => v.z

/-- Modelled from the spec: `BinningData::centerValue(i)`, the center value of
bin `i` of an axis. -/
def centerValue (bd : BinningData) (i : ℕ) : ℚ :=
  bd.bmin + ((i : ℚ) + 1/2) * (bd.bmax - bd.bmin) / (bd.bins : ℚ)

/-- Modelled from the spec: the bin index of a point on one axis. An open
axis clamps out-of-range values to the edge bins; a closed axis wraps
periodically. -/
def binIndex (cm : CoordModel) (bd : BinningData) (v : Vec3) : ℕ :=
  let val := valueOf cm bd.kind v
  let raw : ℤ := ⌊(val - bd.bmin) * (bd.bins : ℚ) / (bd.bmax - bd.bmin)⌋
  match bd.opt with
  | .binOpen => (min (max raw 0) ((bd.bins : ℤ) - 1)).toNat
  | .binClosed => (raw % (bd.bins : ℤ)).toNat

/-- Modelled from the spec: `Acts::BinUtility` as the ordered composition of
its axes (axis 0 first); `+=` is list append. -/
abbrev BinUtility := List BinningData

/-- The bin index along axis `k`; axes beyond the composed ones yield 0
(the real `BinUtility::binTriple` pads missing axes with 0). -/
def binAt (cm : CoordModel) (u : BinUtility) (k : ℕ) (v : Vec3) : ℕ :=
  match u.get? k with
  | some bd => binIndex cm bd v
  | none => 0

/-- Modelled from the spec: `BinUtility::binTriple`, the bin-index triple
`(bin axis0, bin axis1, bin axis2)` of a 3D point. -/
def binTriple (cm : CoordModel) (u : BinUtility) (v : Vec3) : ℕ × ℕ × ℕ :=
  (binAt cm u 0 v, binAt cm u 1 v, binAt cm u 2 v)

/-- The grid `SurfaceGrid` (`vector<vector<vector<const Surface*>>>`,
indexed `[i2][i1][i0]`) as a total function; extents live in
`SurfaceArray`. -/
abbrev SurfaceGrid := ℕ → ℕ → ℕ → Option Surface

/-- The all-null grid the constructions start from. -/
def emptyGrid : SurfaceGrid := fun _ _ _ => none

/-- Write one grid slot (`sGrid[i2][i1][i0] = s`). -/
def updateGrid (g : SurfaceGrid) (i2 i1 i0 : ℕ) (s : Option Surface) : SurfaceGrid :=
  fun j2 j1 j0 => if j2 = i2 ∧ j1 = i1 ∧ j0 = i0 then s else g j2 j1 j0

/-- The placement loop shared by `surfaceArrayOnCylinder` (lines 59-66) and
`surfaceArrayOnDisc` (lines 116-125): for each surface in order, compute the
bin triple of its binning position and store the surface at
`sGrid[bTriple[2]][bTriple[1]][bTriple[0]]`. -/
def prefillGrid (cm : CoordModel) (u : BinUtility) (surfaces : List Surface)
    (g : SurfaceGrid) : SurfaceGrid :=
  surfaces.foldl (fun g sf =>
    let bTriple := binTriple cm u sf.bpos
    updateGrid g bTriple.2.2 bTriple.2.1 bTriple.1 (some sf)) g

/-- Squared Euclidean distance, embedding `(a - b).mag()` comparisons. -/
def distSq (u v : Vec3) : ℚ :=
  (u.x - v.x)^2 + (u.y - v.y)^2 + (u.z - v.z)^2

/-- The square of the source's `minPath = 10e10` sentinel. -/
def sentinelSq : ℚ := 10^22

/-- One iteration of the inner loop of `completeBinning` (lines 249-256):
take the candidate surface when its (squared) distance from the cell center
strictly improves the running minimum. -/
def fillStep (spos : Vec3) (acc : Option Surface × ℚ) (sf : Surface) :
    Option Surface × ℚ :=
  let testPath := distSq spos sf.bpos
  if testPath < acc.2 then (some sf, testPath) else acc

/-- The inner loop of `completeBinning` (lines 248-256) for one grid cell:
starting from the current slot content and the sentinel, keep the first
surface realising each new strict minimum of the (squared) distance from the
cell center `spos`. Returns the final slot content and running minimum. -/
def fillCell (spos : Vec3) (sVector : List Surface) (init : Option Surface) :
    Option Surface × ℚ :=
  sVector.foldl (fillStep spos) (init, sentinelSq)

/-- `V3Matrix`: the per-bin center positions, indexed `[i1][i0]`. -/
abbrev V3Matrix := List (List Vec3)

/-- Fallback point for `getD` on the position matrix. -/
def v3default : Vec3 := ⟨0, 0, 0⟩

/-- The index pairs `(io1, io0)` visited by the nested cell loops of
`completeBinning` (lines 242-243), outer `io1` first. -/
def cellIndices (n1 n0 : ℕ) : List (ℕ × ℕ) :=
  (List.range n1).flatMap (fun i1 => (List.range n0).map (fun i0 => (i1, i0)))

/-- The slow-path loop body of `completeBinning`: visit the listed cells in
order, overwrite each visited slot `sGrid[0][io1][io0]` with the result of
the per-cell minimum search, and count one distance computation per
(cell, surface) pair. -/
def binLoop (v3Matrix : V3Matrix) (sVector : List Surface)
    (L : List (ℕ × ℕ)) (acc : SurfaceGrid × ℕ) : SurfaceGrid × ℕ :=
  L.foldl (fun acc p =>
    let sposition := (v3Matrix.getD p.1 []).getD p.2 v3default
    let filled := fillCell sposition sVector (acc.1 0 p.1 p.2)
    (updateGrid acc.1 0 p.1 p.2 filled.1, acc.2 + sVector.length)) acc

/-- `SurfaceArrayCreator::completeBinning` (lines 219-263). Returns the
updated grid together with the number of surface-to-center distance
computations performed. Fast path: when
`v3Matrix.size() * v3Matrix[0].size() == sVector.size()` it returns at once,
leaving the grid untouched. Slow path: every cell in the matrix extent is
re-assigned the surface closest to its center (note: the source reads
`sentry = sGrid[0][io1][io0]` but never consults it, so occupied cells are
overwritten as well). -/
def completeBinning (v3Matrix : V3Matrix) (sVector : List Surface)
    (sGrid : SurfaceGrid) : SurfaceGrid × ℕ :=
  let nSurfaces := sVector.length
  let nGridPoints := v3Matrix.length * (v3Matrix.headD []).length
  if nGridPoints = nSurfaces then (sGrid, 0)
  else binLoop v3Matrix sVector
    (cellIndices v3Matrix.length (v3Matrix.headD []).length) (sGrid, 0)

/-- A finished surface array (`BinnedArrayXD<const Surface*>`): the grid, the
bin utility it was built with, and the grid extents `(d2, d1, d0)` that in
the source are the sizes of the nested vectors. -/
structure SurfaceArray where
  grid : SurfaceGrid
  binUtility : BinUtility
  d2 : ℕ
  d1 : ℕ
  d0 : ℕ

/-- Modelled from the spec: the candidate neighbour bin indices of bin `i` on
an axis of `n` bins — the indices `i-1, i, i+1`, clamped to `[0, n-1]` on an
open axis and wrapped periodically on a closed axis, without repetitions
(the box neighbourhood is a set of cells). -/
def neighbourIndices (opt : BinningOption) (n i : ℕ) : List ℕ :=
  match opt with
  | .binClosed => [(i + n - 1) % n, i % n, (i + 1) % n].dedup
  | .binOpen => [i - 1, i, min (i + 1) (n - 1)].dedup

/-- The boundary kind the array uses for grid axis `k`: the bin utility's
axis if it has one, else open (the leading singleton dimension has no
binning data). -/
def axisOpt (u : BinUtility) (k : ℕ) : BinningOption :=
  match u.get? k with
  | some bd => bd.opt
  | none => .binOpen

/-- Modelled from the spec: `BinnedArrayXD::objectCluster` is not under
`src/`; the spec describes it as the set of occupied (non-null) objects in
the box neighbourhood — all cells within one bin of the triple
`(io0, io1, io2)` along every axis, respecting closed-axis wrap. -/
def objectCluster (a : SurfaceArray) (io0 io1 io2 : ℕ) : List Surface :=
  ((neighbourIndices (axisOpt a.binUtility 2) a.d2 io2).flatMap (fun j2 =>
    (neighbourIndices (axisOpt a.binUtility 1) a.d1 io1).flatMap (fun j1 =>
      (neighbourIndices (axisOpt a.binUtility 0) a.d0 io0).filterMap (fun j0 =>
        a.grid j2 j1 j0)))).dedup

/-- The `registerNeighbours` calls issued while `registerNeighbourHood`
processes the single cell `(io0, io1, io2)` (lines 186-207): nothing if the
cell is empty or its surface has no associated element; otherwise one call
per surface of the box cluster, each carrying the freshly re-created
`neighbourElements` vector — `[e]` if that cluster surface is distinct from
the cell's surface (pointer identity) and has associated element `e`, and
`[]` otherwise. A call is a pair (target element, neighbour list). -/
def cellCalls (a : SurfaceArray) (io0 io1 io2 : ℕ) : List (ℕ × List ℕ) :=
  match a.grid io2 io1 io0 with
  | none => []
  | some bSurface =>
    match bSurface.elem with
    | none => []
    | some bElement =>
      (objectCluster a io0 io1 io2).map (fun nSurface =>
        let neighbourElements : List ℕ :=
          if nSurface ≠ bSurface then
            match nSurface.elem with
            | some e => [e]
            | none => []
          else []
        (bElement, neighbourElements))

/-- `SurfaceArrayCreator::registerNeighbourHood` (lines 170-215), observed
through the sequence of `DetectorElementBase::registerNeighbours` calls it
issues: the grid is walked with `io2` outermost, then `io1`, then `io0`,
emitting the calls of each qualifying cell in order. -/
def registerNeighbourHood (a : SurfaceArray) : List (ℕ × List ℕ) :=
  (List.range a.d2).flatMap (fun io2 =>
    (List.range a.d1).flatMap (fun io1 =>
      (List.range a.d0).flatMap (fun io0 => cellCalls a io0 io1 io2)))

/-- The neighbour list an element holds after a sequence of
`registerNeighbours` calls, under the spec's contract for that collaborator:
last write wins. `none` means the element was never called. -/
def finalNeighbours (calls : List (ℕ × List ℕ)) (e : ℕ) : Option (List ℕ) :=
  ((calls.filter (fun c => c.1 = e)).getLast?).map (fun c => c.2)

/-- The surfaces stored in the cells of the array (within its extents). -/
def cellsOf (a : SurfaceArray) : List Surface :=
  (List.range a.d2).flatMap (fun i2 =>
    (List.range a.d1).flatMap (fun i1 =>
      (List.range a.d0).filterMap (fun i0 => a.grid i2 i1 i0)))

/-- The bin utility of `surfaceArrayOnCylinder` (lines 36-38): a closed phi
axis of `binsPhi` bins on `[minPhi, maxPhi)` composed with an open z axis of
`binsZ` bins on `[-halfZ, halfZ)`. The optional transform is consumed only
by the external `BinUtility` frame and is not modelled. -/
def cylBinUtility (minPhi maxPhi halfZ : ℚ) (binsPhi binsZ : ℕ) : BinUtility :=
  [⟨binsPhi, minPhi, maxPhi, .binClosed, .binPhi⟩,
   ⟨binsZ, -halfZ, halfZ, .binOpen, .binZ⟩]

/-- The cylinder position matrix (lines 42-56):
`v3Matrix[iz][iphi] = (R·cos(phi), R·sin(phi), z)` with `phi`/`z` the center
values of bins `iphi`/`iz`. -/
def cylV3Matrix (cm : CoordModel) (R minPhi maxPhi halfZ : ℚ)
    (binsPhi binsZ : ℕ) : V3Matrix :=
  (List.range binsZ).map (fun iz =>
    let z := centerValue ⟨binsZ, -halfZ, halfZ, .binOpen, .binZ⟩ iz
    (List.range binsPhi).map (fun iphi =>
      let phi := centerValue ⟨binsPhi, minPhi, maxPhi, .binClosed, .binPhi⟩ iphi
      Vec3.mk (R * cm.cosQ phi) (R * cm.sinQ phi) z))

/-- `SurfaceArrayCreator::surfaceArrayOnCylinder` (lines 19-76): build the
bin utility and the position matrix, prefill the surfaces through
`binTriple`, complete the binning, wrap into a `SurfaceArray` with extents
`(1, binsZ, binsPhi)`, and register the neighbourhood. Returns the array
together with the emitted `registerNeighbours` call sequence. -/
def surfaceArrayOnCylinder (cm : CoordModel) (surfaces : List Surface)
    (R minPhi maxPhi halfZ : ℚ) (binsPhi binsZ : ℕ) :
    SurfaceArray × List (ℕ × List ℕ) :=
  let arrayUtility := cylBinUtility minPhi maxPhi halfZ binsPhi binsZ
  let v3Matrix := cylV3Matrix cm R minPhi maxPhi halfZ binsPhi binsZ
  let sGrid := prefillGrid cm arrayUtility surfaces emptyGrid
  let completed := completeBinning v3Matrix surfaces sGrid
  let sArray : SurfaceArray := ⟨completed.1, arrayUtility, 1, binsZ, binsPhi⟩
  (sArray, registerNeighbourHood sArray)

/-- The bin utility of `surfaceArrayOnDisc` (lines 94-107): an open radial
axis composed with a closed phi axis. The source builds the radial axis in
two branches (a single-bin `BinningData` when `binsR == 1`, a fully binned
open axis otherwise); in the model both are the same `BinningData` record,
since a one-bin open axis maps every in-range radius to bin 0. -/
def discBinUtility (minR maxR minPhi maxPhi : ℚ) (binsR binsPhi : ℕ) :
    BinUtility :=
  [⟨binsR, minR, maxR, .binOpen, .binR⟩,
   ⟨binsPhi, minPhi, maxPhi, .binClosed, .binPhi⟩]

/-- The disc's estimated z position (lines 114-127): the arithmetic mean of
the surfaces' binning-position z coordinates. The source performs
`z /= surfaces.size()` with no emptiness guard; for an empty list the C++
double division yields `0.0 / 0 = NaN`, while this total `ℚ` division
yields `0` — either way no error is signalled. -/
def discZ (surfaces : List Surface) : ℚ :=
  (surfaces.map (fun sf => sf.bpos.z)).sum / (surfaces.length : ℚ)

/-- The disc position matrix (lines 132-143):
`v3Matrix[iphi][ir] = (R·cos(phi), R·sin(phi), z)` with `R`/`phi` the center
values of bins `ir`/`iphi` and `z` the estimated disc z. -/
def discV3Matrix (cm : CoordModel) (minR maxR minPhi maxPhi : ℚ)
    (binsR binsPhi : ℕ) (z : ℚ) : V3Matrix :=
  (List.range binsPhi).map (fun iphi =>
    let phi := centerValue ⟨binsPhi, minPhi, maxPhi, .binClosed, .binPhi⟩ iphi
    (List.range binsR).map (fun ir =>
      let R := centerValue ⟨binsR, minR, maxR, .binOpen, .binR⟩ ir
      Vec3.mk (R * cm.cosQ phi) (R * cm.sinQ phi) z))

/-- `SurfaceArrayCreator::surfaceArrayOnDisc` (lines 78-153): build the bin
utility, prefill the surfaces (accumulating their z positions), average the
z, build the position matrix, complete the binning, wrap into a
`SurfaceArray` with extents `(1, binsPhi, binsR)`, and register the
neighbourhood. -/
def surfaceArrayOnDisc (cm : CoordModel) (surfaces : List Surface)
    (minR maxR minPhi maxPhi : ℚ) (binsR binsPhi : ℕ) :
    SurfaceArray × List (ℕ × List ℕ) :=
  let arrayUtility := discBinUtility minR maxR minPhi maxPhi binsR binsPhi
  let sGrid := prefillGrid cm arrayUtility surfaces emptyGrid
  let z := discZ surfaces
  let v3Matrix := discV3Matrix cm minR maxR minPhi maxPhi binsR binsPhi z
  let completed := completeBinning v3Matrix surfaces sGrid
  let sArray : SurfaceArray := ⟨completed.1, arrayUtility, 1, binsPhi, binsR⟩
  (sArray, registerNeighbourHood sArray)

/-- `SurfaceArrayCreator::surfaceArrayOnPlane` (lines 156-167): unimplemented
in the source, it returns `nullptr`. -/
def surfaceArrayOnPlane (_surfaces : List Surface)
    (_halflengthX _halflengthY : ℚ) (_binsX _binsY : ℕ) :
    Option SurfaceArray :=
  none

/-! ### Generic list helpers -/

/-- An element delivered by `getLast?` is a member of the list. -/
lemma getLast?_is_mem {α : Type} : ∀ {l : List α} {x : α},
    l.getLast? = some x → x ∈ l := by
  intro l
  induction l with
  | nil => intro x h; simp at h
  | cons a t ih =>
    intro x h
    cases t with
    | nil => simp_all
    | cons b t' =>
      rw [List.getLast?_cons_cons] at h
      exact List.mem_cons_of_mem a (ih h)

/-! ### The cell loop of `completeBinning` -/

lemma mem_cellIndices {n1 n0 i1 i0 : ℕ} :
    (i1, i0) ∈ cellIndices n1 n0 ↔ i1 < n1 ∧ i0 < n0 := by
  simp only [cellIndices, List.mem_flatMap, List.mem_map, List.mem_range]
  constructor
  · rintro ⟨a, ha, b, hb, h⟩
    obtain ⟨rfl, rfl⟩ := Prod.mk.injEq .. ▸ h
    exact ⟨ha, hb⟩
  · rintro ⟨h1, h0⟩
    exact ⟨i1, h1, i0, h0, rfl⟩

lemma nodup_cellIndices (n1 n0 : ℕ) : (cellIndices n1 n0).Nodup := by
  rw [cellIndices, List.nodup_flatMap]
  refine ⟨fun i1 _ => ?_, ?_⟩
  · exact (List.nodup_range n0).map (fun a b h => (Prod.mk.injEq .. ▸ h).2)
  · refine List.Pairwise.imp ?_ (List.pairwise_lt_range n1)
    intro a b hab
    intro x hxa hxb
    simp only [Function.onFun, List.mem_map] at hxa hxb
    obtain ⟨_, _, rfl⟩ := hxa
    obtain ⟨_, _, h⟩ := hxb
    exact absurd ((Prod.mk.injEq .. ▸ h).1) (Nat.ne_of_lt hab).symm

lemma binLoop_cons (v3Matrix : V3Matrix) (sVector : List Surface)
    (p : ℕ × ℕ) (L : List (ℕ × ℕ)) (acc : SurfaceGrid × ℕ) :
    binLoop v3Matrix sVector (p :: L) acc =
      binLoop v3Matrix sVector L
        (updateGrid acc.1 0 p.1 p.2
          (fillCell ((v3Matrix.getD p.1 []).getD p.2 v3default) sVector
            (acc.1 0 p.1 p.2)).1,
         acc.2 + sVector.length) := rfl

/-- Cells the loop does not visit (and every slot outside plane `i2 = 0`)
keep their content. -/
lemma binLoop_untouched (v3Matrix : V3Matrix) (sVector : List Surface) :
    ∀ (L : List (ℕ × ℕ)) (g : SurfaceGrid) (c : ℕ) (i2 i1 i0 : ℕ),
    (i2 ≠ 0 ∨ (i1, i0) ∉ L) →
    (binLoop v3Matrix sVector L (g, c)).1 i2 i1 i0 = g i2 i1 i0 := by
  intro L
  induction L with
  | nil => intro g c i2 i1 i0 _; rfl
  | cons p L ih =>
    intro g c i2 i1 i0 h
    rw [binLoop_cons]
    have hne : ¬(i2 = 0 ∧ i1 = p.1 ∧ i0 = p.2) := by
      rcases h with h | h
      · exact fun hc => h hc.1
      · intro hc
        exact h (by
          have : (i1, i0) = p := by
            rw [hc.2.1, hc.2.2]
          exact this ▸ List.mem_cons_self p L)
    have hrest : i2 ≠ 0 ∨ (i1, i0) ∉ L := by
      rcases h with h | h
      · exact Or.inl h
      · exact Or.inr fun hc => h (List.mem_cons_of_mem p hc)
    rw [ih _ _ i2 i1 i0 hrest]
    simp only [updateGrid, if_neg hne]

/-- The slot of a visited cell ends as the per-cell minimum search started
from its original content (visited cells are pairwise distinct). -/
lemma binLoop_cell (v3Matrix : V3Matrix) (sVector : List Surface) :
    ∀ (L : List (ℕ × ℕ)) (g : SurfaceGrid) (c : ℕ) (i1 i0 : ℕ),
    L.Nodup → (i1, i0) ∈ L →
    (binLoop v3Matrix sVector L (g, c)).1 0 i1 i0 =
      (fillCell ((v3Matrix.getD i1 []).getD i0 v3default) sVector
        (g 0 i1 i0)).1 := by
  intro L
  induction L with
  | nil => intro g c i1 i0 _ h; simp at h
  | cons p L ih =>
    intro g c i1 i0 hnd hmem
    have hnd' := List.nodup_cons.mp hnd
    rw [binLoop_cons]
    rcases List.mem_cons.mp hmem with heq | hmem'
    · have hp1 : p.1 = i1 := by rw [← heq]
      have hp2 : p.2 = i0 := by rw [← heq]
      subst hp1; subst hp2
      rw [binLoop_untouched _ _ _ _ _ _ _ _ (Or.inr (heq ▸ hnd'.1))]
      simp [updateGrid]
    · have hne : (i1, i0) ≠ p := fun hc => hnd'.1 (hc ▸ hmem')
      rw [ih _ _ i1 i0 hnd'.2 hmem']
      have : updateGrid g 0 p.1 p.2
          (fillCell ((v3Matrix.getD p.1 []).getD p.2 v3default) sVector
            (g 0 p.1 p.2)).1 0 i1 i0 = g 0 i1 i0 := by
        simp only [updateGrid]
        rw [if_neg]
        intro hc
        exact hne (by rw [hc.2.1, hc.2.2])
      rw [this]

/-- Slow path of `completeBinning`, per cell: each slot in the matrix extent
is re-assigned the outcome of the minimum search seeded with its previous
content. -/
lemma completeBinning_cell (v3Matrix : V3Matrix) (sVector : List Surface)
    (sGrid : SurfaceGrid) (i1 i0 : ℕ)
    (hdims : v3Matrix.length * (v3Matrix.headD []).length ≠ sVector.length)
    (h1 : i1 < v3Matrix.length) (h0 : i0 < (v3Matrix.headD []).length) :
    (completeBinning v3Matrix sVector sGrid).1 0 i1 i0 =
      (fillCell ((v3Matrix.getD i1 []).getD i0 v3default) sVector
        (sGrid 0 i1 i0)).1 := by
  rw [completeBinning]
  simp only [if_neg hdims]
  exact binLoop_cell _ _ _ _ _ _ _ (nodup_cellIndices _ _)
    (mem_cellIndices.mpr ⟨h1, h0⟩)

/-- Slow path of `completeBinning`: slots outside the visited extent keep
their content. -/
lemma completeBinning_untouched (v3Matrix : V3Matrix) (sVector : List Surface)
    (sGrid : SurfaceGrid) (i2 i1 i0 : ℕ)
    (hdims : v3Matrix.length * (v3Matrix.headD []).length ≠ sVector.length)
    (h : i2 ≠ 0 ∨ ¬(i1 < v3Matrix.length ∧ i0 < (v3Matrix.headD []).length)) :
    (completeBinning v3Matrix sVector sGrid).1 i2 i1 i0 = sGrid i2 i1 i0 := by
  rw [completeBinning]
  simp only [if_neg hdims]
  refine binLoop_untouched _ _ _ _ _ _ _ _ ?_
  rcases h with h | h
  · exact Or.inl h
  · exact Or.inr fun hc => h (mem_cellIndices.mp hc)

/-! ### The per-cell minimum search -/

/-- Full characterisation of the strict-minimum fold: either no candidate
beats the initial running minimum and the accumulator is untouched, or the
result is the first list entry realising the overall minimum distance. -/
lemma fillFold_spec (spos : Vec3) :
    ∀ (sV : List Surface) (o : Option Surface) (m : ℚ),
    (sV.foldl (fillStep spos) (o, m) = (o, m) ∧
      ∀ sf ∈ sV, m ≤ distSq spos sf.bpos) ∨
    (∃ k, k < sV.length ∧
      (sV.foldl (fillStep spos) (o, m)).1 = some (sV.getD k dSurf) ∧
      (sV.foldl (fillStep spos) (o, m)).2 =
        distSq spos (sV.getD k dSurf).bpos ∧
      (sV.foldl (fillStep spos) (o, m)).2 < m ∧
      (∀ sf ∈ sV, (sV.foldl (fillStep spos) (o, m)).2 ≤ distSq spos sf.bpos) ∧
      (∀ j, j < k →
        (sV.foldl (fillStep spos) (o, m)).2 <
          distSq spos (sV.getD j dSurf).bpos)) := by
  intro sV
  induction sV with
  | nil => intro o m; left; exact ⟨rfl, by simp⟩
  | cons a l ih =>
    intro o m
    rw [List.foldl_cons]
    by_cases h : distSq spos a.bpos < m
    · have hstep : fillStep spos (o, m) a = (some a, distSq spos a.bpos) := by
        simp [fillStep, h]
      rw [hstep]
      rcases ih (some a) (distSq spos a.bpos) with
        ⟨heq, hall⟩ | ⟨k, hk, h1, h2, h3, h4, h5⟩
      · right
        refine ⟨0, Nat.succ_pos _, ?_, ?_, ?_, ?_, ?_⟩
        · rw [heq]; simp
        · rw [heq]; simp
        · rw [heq]; exact h
        · intro sf hsf
          rw [heq]
          rcases List.mem_cons.mp hsf with rfl | hsf'
          · exact le_refl _
          · exact hall sf hsf'
        · intro j hj; omega
      · right
        refine ⟨k + 1, Nat.succ_lt_succ hk, ?_, ?_, ?_, ?_, ?_⟩
        · rw [List.getD_cons_succ]; exact h1
        · rw [List.getD_cons_succ]; exact h2
        · exact lt_trans h3 h
        · intro sf hsf
          rcases List.mem_cons.mp hsf with rfl | hsf'
          · exact le_of_lt h3
          · exact h4 sf hsf'
        · intro j hj
          cases j with
          | zero => rw [List.getD_cons_zero]; exact h3
          | succ j' =>
            rw [List.getD_cons_succ]
            exact h5 j' (Nat.lt_of_succ_lt_succ hj)
    · have hstep : fillStep spos (o, m) a = (o, m) := by
        simp [fillStep, h]
      rw [hstep]
      rcases ih o m with ⟨heq, hall⟩ | ⟨k, hk, h1, h2, h3, h4, h5⟩
      · left
        refine ⟨heq, ?_⟩
        intro sf hsf
        rcases List.mem_cons.mp hsf with rfl | hsf'
        · exact not_lt.mp h
        · exact hall sf hsf'
      · right
        refine ⟨k + 1, Nat.succ_lt_succ hk, ?_, ?_, ?_, ?_, ?_⟩
        · rw [List.getD_cons_succ]; exact h1
        · rw [List.getD_cons_succ]; exact h2
        · exact h3
        · intro sf hsf
          rcases List.mem_cons.mp hsf with rfl | hsf'
          · exact le_of_lt (lt_of_lt_of_le h3 (not_lt.mp h))
          · exact h4 sf hsf'
        · intro j hj
          cases j with
          | zero =>
            rw [List.getD_cons_zero]
            exact lt_of_lt_of_le h3 (not_lt.mp h)
          | succ j' =>
            rw [List.getD_cons_succ]
            exact h5 j' (Nat.lt_of_succ_lt_succ hj)

/-- A cell the minimum search leaves empty started empty, and every surface
is at least the sentinel away from its center. -/
lemma fillCell_none (spos : Vec3) (sV : List Surface) (init : Option Surface)
    (h : (fillCell spos sV init).1 = none) :
    init = none ∧ ∀ sf ∈ sV, sentinelSq ≤ distSq spos sf.bpos := by
  rcases fillFold_spec spos sV init sentinelSq with ⟨heq, hall⟩ | ⟨_, _, h1, _⟩
  · rw [fillCell, heq] at h
    exact ⟨h, hall⟩
  · rw [fillCell, h1] at h
    simp at h

/-- A surface assigned to an initially empty cell is the first input-list
entry realising the minimum distance from the cell center: it minimises the
distance over the whole list, and every earlier entry is strictly farther. -/
lemma fillCell_some_argmin (spos : Vec3) (sV : List Surface) (s : Surface)
    (h : (fillCell spos sV none).1 = some s) :
    ∃ k, k < sV.length ∧ sV.getD k dSurf = s ∧
      (∀ sf ∈ sV, distSq spos s.bpos ≤ distSq spos sf.bpos) ∧
      (∀ j, j < k → distSq spos s.bpos < distSq spos (sV.getD j dSurf).bpos) := by
  rcases fillFold_spec spos sV none sentinelSq with
    ⟨heq, _⟩ | ⟨k, hk, h1, h2, _, h4, h5⟩
  · rw [fillCell, heq] at h
    simp at h
  · rw [fillCell] at h
    rw [h1] at h
    have hs : sV.getD k dSurf = s := Option.some.inj h
    refine ⟨k, hk, hs, ?_, ?_⟩
    · intro sf hsf
      have := h4 sf hsf
      rw [h2, hs] at this
      exact this
    · intro j hj
      have := h5 j hj
      rw [h2, hs] at this
      exact this

/-- The minimum search fills the cell as soon as some surface lies strictly
within the sentinel distance of its center. -/
lemma fillCell_some_of_near (spos : Vec3) (sV : List Surface)
    (init : Option Surface)
    (h : ∃ sf ∈ sV, distSq spos sf.bpos < sentinelSq) :
    (fillCell spos sV init).1 ≠ none := by
  intro hnone
  obtain ⟨sf, hmem, hlt⟩ := h
  exact absurd hlt (not_lt.mpr ((fillCell_none spos sV init hnone).2 sf hmem))

/-! ### The placement phase -/

lemma getLast?_cons' {α : Type} (a : α) (l : List α) :
    (a :: l).getLast? = some ((l.getLast?).getD a) := by
  induction l generalizing a with
  | nil => rfl
  | cons b t ih =>
    rw [List.getLast?_cons_cons, ih b]
    simp [ih b]

/-- The placement loop, fully characterised: a cell holds the last surface
of the input list whose bin triple addresses it, and keeps its previous
content when no surface does (later placements silently overwrite earlier
ones). -/
lemma prefillGrid_apply (cm : CoordModel) (u : BinUtility) :
    ∀ (L : List Surface) (g : SurfaceGrid) (i2 i1 i0 : ℕ),
    prefillGrid cm u L g i2 i1 i0 =
      match (L.filter
          (fun s => decide (binTriple cm u s.bpos = (i0, i1, i2)))).getLast? with
      | some s => some s
      | none => g i2 i1 i0 := by
  intro L
  induction L with
  | nil => intro g i2 i1 i0; rfl
  | cons a l ih =>
    intro g i2 i1 i0
    rw [prefillGrid, List.foldl_cons]
    rw [show l.foldl (fun g sf =>
        let bTriple := binTriple cm u sf.bpos
        updateGrid g bTriple.2.2 bTriple.2.1 bTriple.1 (some sf))
        (updateGrid g (binTriple cm u a.bpos).2.2 (binTriple cm u a.bpos).2.1
          (binTriple cm u a.bpos).1 (some a)) =
      prefillGrid cm u l (updateGrid g (binTriple cm u a.bpos).2.2
        (binTriple cm u a.bpos).2.1 (binTriple cm u a.bpos).1 (some a))
      from rfl]
    rw [ih]
    by_cases hpa : binTriple cm u a.bpos = (i0, i1, i2)
    · rw [List.filter_cons_of_pos (by simp [hpa])]
      rw [getLast?_cons']
      cases hlast : (l.filter
          (fun s => decide (binTriple cm u s.bpos = (i0, i1, i2)))).getLast? with
      | some s => simp [hlast]
      | none =>
        simp only [hlast, Option.getD_none]
        have h0 : (binTriple cm u a.bpos).1 = i0 := by rw [hpa]
        have h1 : (binTriple cm u a.bpos).2.1 = i1 := by rw [hpa]
        have h2 : (binTriple cm u a.bpos).2.2 = i2 := by rw [hpa]
        rw [h0, h1, h2]
        simp [updateGrid]
    · rw [List.filter_cons_of_neg (by simp [hpa])]
      cases hlast : (l.filter
          (fun s => decide (binTriple cm u s.bpos = (i0, i1, i2)))).getLast? with
      | some s => simp [hlast]
      | none =>
        simp only [hlast]
        simp only [updateGrid]
        rw [if_neg]
        intro hc
        apply hpa
        have : binTriple cm u a.bpos =
            ((binTriple cm u a.bpos).1, (binTriple cm u a.bpos).2.1,
             (binTriple cm u a.bpos).2.2) := rfl
        rw [this, ← hc.1, ← hc.2.1, ← hc.2.2]

/-! ### The neighbourhood registration -/

/-- Candidate neighbour indices stay inside the axis extent. -/
lemma mem_neighbourIndices_lt {opt : BinningOption} {n i j : ℕ} (hi : i < n)
    (hj : j ∈ neighbourIndices opt n i) : j < n := by
  have hn : 0 < n := by omega
  cases opt with
  | binOpen =>
    simp only [neighbourIndices, List.mem_dedup, List.mem_cons,
      List.not_mem_nil, or_false] at hj
    rcases hj with rfl | rfl | rfl <;> omega
  | binClosed =>
    simp only [neighbourIndices, List.mem_dedup, List.mem_cons,
      List.not_mem_nil, or_false] at hj
    rcases hj with rfl | rfl | rfl <;> exact Nat.mod_lt _ hn

/-- A surface stored at an in-extent cell is among the array's surfaces. -/
lemma mem_cellsOf {a : SurfaceArray} {i2 i1 i0 : ℕ} {s : Surface}
    (h2 : i2 < a.d2) (h1 : i1 < a.d1) (h0 : i0 < a.d0)
    (hg : a.grid i2 i1 i0 = some s) : s ∈ cellsOf a := by
  simp only [cellsOf, List.mem_flatMap, List.mem_filterMap, List.mem_range]
  exact ⟨i2, h2, i1, h1, i0, h0, hg⟩

/-- Every member of a box cluster around an in-extent cell is among the
array's surfaces. -/
lemma objectCluster_mem_cells {a : SurfaceArray} {io0 io1 io2 : ℕ}
    (h0 : io0 < a.d0) (h1 : io1 < a.d1) (h2 : io2 < a.d2) :
    ∀ n ∈ objectCluster a io0 io1 io2, n ∈ cellsOf a := by
  intro n hn
  rw [objectCluster, List.mem_dedup] at hn
  simp only [List.mem_flatMap, List.mem_filterMap] at hn
  obtain ⟨j2, hj2, j1, hj1, j0, hj0, hg⟩ := hn
  exact mem_cellsOf (mem_neighbourIndices_lt h2 hj2)
    (mem_neighbourIndices_lt h1 hj1) (mem_neighbourIndices_lt h0 hj0) hg

/-- A call in the emitted sequence comes from some in-extent cell. -/
lemma mem_registerNeighbourHood {a : SurfaceArray} {p : ℕ × List ℕ} :
    p ∈ registerNeighbourHood a ↔
      ∃ io2, io2 < a.d2 ∧ ∃ io1, io1 < a.d1 ∧ ∃ io0, io0 < a.d0 ∧
        p ∈ cellCalls a io0 io1 io2 := by
  simp [registerNeighbourHood, List.mem_flatMap, List.mem_range]

/-- A call of one cell is addressed to the cell's element and carries the
freshly created per-candidate list. -/
lemma cellCalls_mem {a : SurfaceArray} {io0 io1 io2 : ℕ} {p : ℕ × List ℕ}
    (hp : p ∈ cellCalls a io0 io1 io2) :
    ∃ b e, a.grid io2 io1 io0 = some b ∧ b.elem = some e ∧
      ∃ nS ∈ objectCluster a io0 io1 io2,
        p = (e, if nS ≠ b then
            (match nS.elem with | some e' => [e'] | none => []) else []) := by
  cases hg : a.grid io2 io1 io0 with
  | none => simp only [cellCalls, hg, List.not_mem_nil] at hp
  | some b =>
    cases hb : b.elem with
    | none => simp only [cellCalls, hg, hb, List.not_mem_nil] at hp
    | some e =>
      simp only [cellCalls, hg, hb, List.mem_map] at hp
      obtain ⟨nS, hnS, hpe⟩ := hp
      exact ⟨b, e, rfl, hb, nS, hnS, hpe.symm⟩

/-! ### Concrete instances used by witnesses and counterexamples -/

/-- A trivial coordinate model used to instantiate the opaque external math
at concrete inputs. -/
def cmTriv : CoordModel := ⟨fun q => q, fun q => q, fun v => v.x, fun v => v.x⟩

/-- Two occupied phi bins (closed 2-bin phi axis, one z bin), two distinct
surfaces with distinct elements 5 and 6. -/
def arr2 : SurfaceArray :=
  ⟨fun i2 i1 i0 =>
      if i2 = 0 ∧ i1 = 0 ∧ i0 = 0 then some ⟨0, ⟨0, 0, 0⟩, some 5⟩
      else if i2 = 0 ∧ i1 = 0 ∧ i0 = 1 then some ⟨1, ⟨0, 0, 0⟩, some 6⟩
      else none,
    cylBinUtility 0 2 1 2 1, 1, 1, 2⟩

/-- Two occupied phi bins holding two distinct surfaces that share the same
associated detector element 5. -/
def arrShared : SurfaceArray :=
  ⟨fun i2 i1 i0 =>
      if i2 = 0 ∧ i1 = 0 ∧ i0 = 0 then some ⟨0, ⟨0, 0, 0⟩, some 5⟩
      else if i2 = 0 ∧ i1 = 0 ∧ i0 = 1 then some ⟨1, ⟨0, 0, 0⟩, some 5⟩
      else none,
    cylBinUtility 0 2 1 2 1, 1, 1, 2⟩

/-- The grid state of the spec's end-to-end example after (fast-path)
completion: 8 surfaces in 8 phi bins on a closed 8-bin phi axis and a single
z bin, surface `k` in bin `k` carrying its own element `k`. -/
def arr8 : SurfaceArray :=
  ⟨fun i2 i1 i0 =>
      if i2 = 0 ∧ i1 = 0 ∧ i0 < 8 then some ⟨i0, ⟨0, 0, 0⟩, some i0⟩ else none,
    cylBinUtility 0 8 1 8 1, 1, 1, 8⟩

/-- Surface prefilled into the grid for the overwrite counterexample. -/
def sOver1 : Surface := ⟨1, ⟨9, 0, 0⟩, none⟩

/-- Surface sitting exactly at the prefilled cell's center. -/
def sOver2 : Surface := ⟨2, ⟨0, 0, 0⟩, none⟩

/-- A grid whose cell `(0,0,0)` already holds `sOver1`. -/
def gPre : SurfaceGrid := updateGrid emptyGrid 0 0 0 (some sOver1)

/-- A single surface at the origin. -/
def surfA : Surface := ⟨0, ⟨0, 0, 0⟩, none⟩

/-! ### Claims -/

/-- Claim C6: after the placement phase (before completion runs), the cell
`(i2, i1, i0)` of the freshly prefilled grid holds exactly the last surface
of the input list whose bin-index triple — computed by the bin utility from
the surface's binning position — addresses that cell, and is empty when no
surface maps there; in particular every placed surface sits at its own
triple's cell and later surfaces silently overwrite earlier ones. -/
theorem placement_bin_triple_last_wins (cm : CoordModel) (u : BinUtility)
    (surfaces : List Surface) (i2 i1 i0 : ℕ) :
    prefillGrid cm u surfaces emptyGrid i2 i1 i0 =
      (surfaces.filter
        (fun s => decide (binTriple cm u s.bpos = (i0, i1, i2)))).getLast? := by
  rw [prefillGrid_apply]
  cases h : (surfaces.filter
      (fun s => decide (binTriple cm u s.bpos = (i0, i1, i2)))).getLast? with
  | some s => rfl
  | none => rfl

/-- Claim C7: when the number of grid cells equals the number of input
surfaces, `completeBinning` returns immediately: the grid is returned
unchanged and zero surface-to-center distance computations are performed. -/
theorem completeBinning_fast_path (v3Matrix : V3Matrix)
    (sVector : List Surface) (sGrid : SurfaceGrid)
    (h : v3Matrix.length * (v3Matrix.headD []).length = sVector.length) :
    completeBinning v3Matrix sVector sGrid = (sGrid, 0) := by
  rw [completeBinning]
  simp only [if_pos h]

/-- Witness for claim C7 at a concrete one-row matrix and two surfaces. -/
theorem completeBinning_fast_path_witness :
    (([[⟨0,0,0⟩, ⟨1,1,1⟩]] : V3Matrix).length *
        (([[⟨0,0,0⟩, ⟨1,1,1⟩]] : V3Matrix).headD []).length =
      ([⟨0, ⟨2,0,0⟩, none⟩, ⟨1, ⟨3,0,0⟩, none⟩] : List Surface).length) ∧
    completeBinning [[⟨0,0,0⟩, ⟨1,1,1⟩]]
      [⟨0, ⟨2,0,0⟩, none⟩, ⟨1, ⟨3,0,0⟩, none⟩] emptyGrid = (emptyGrid, 0) :=
  ⟨by decide, completeBinning_fast_path _ _ _ (by decide)⟩

/-- Claim C5: when `completeBinning` assigns a surface to a cell that was
empty before it ran, the assigned surface is the first input-list entry
realising the minimum Euclidean distance from the cell's center: it
minimises the (squared) distance over the whole list and every earlier
entry is strictly farther, so later equal distances never replace it. -/
theorem nearest_fill_first_argmin (v3Matrix : V3Matrix)
    (sVector : List Surface) (sGrid : SurfaceGrid) (i1 i0 : ℕ) (s : Surface)
    (h1 : i1 < v3Matrix.length) (h0 : i0 < (v3Matrix.headD []).length)
    (hempty : sGrid 0 i1 i0 = none)
    (hres : (completeBinning v3Matrix sVector sGrid).1 0 i1 i0 = some s) :
    ∃ k, k < sVector.length ∧ sVector.getD k dSurf = s ∧
      (∀ sf ∈ sVector,
        distSq ((v3Matrix.getD i1 []).getD i0 v3default) s.bpos ≤
          distSq ((v3Matrix.getD i1 []).getD i0 v3default) sf.bpos) ∧
      (∀ j, j < k →
        distSq ((v3Matrix.getD i1 []).getD i0 v3default) s.bpos <
          distSq ((v3Matrix.getD i1 []).getD i0 v3default)
            (sVector.getD j dSurf).bpos) := by
  by_cases hdims :
      v3Matrix.length * (v3Matrix.headD []).length = sVector.length
  · rw [completeBinning] at hres
    simp only [if_pos hdims] at hres
    rw [hempty] at hres
    exact absurd hres (by simp)
  · rw [completeBinning_cell _ _ _ _ _ hdims h1 h0, hempty] at hres
    exact fillCell_some_argmin _ _ _ hres

/-- Witness for claim C5: a single cell at the origin and two surfaces at
distances 3 and 4; the first is assigned and is the first argmin. -/
theorem nearest_fill_first_argmin_witness :
    (emptyGrid 0 0 0 = none ∧
      (completeBinning [[⟨0,0,0⟩]]
        [⟨1, ⟨3,0,0⟩, none⟩, ⟨2, ⟨4,0,0⟩, none⟩] emptyGrid).1 0 0 0 =
        some ⟨1, ⟨3,0,0⟩, none⟩) ∧
    (∃ k, k < ([⟨1, ⟨3,0,0⟩, none⟩, ⟨2, ⟨4,0,0⟩, none⟩] :
          List Surface).length ∧
      ([⟨1, ⟨3,0,0⟩, none⟩, ⟨2, ⟨4,0,0⟩, none⟩] : List Surface).getD k dSurf =
        ⟨1, ⟨3,0,0⟩, none⟩ ∧
      (∀ sf ∈ ([⟨1, ⟨3,0,0⟩, none⟩, ⟨2, ⟨4,0,0⟩, none⟩] : List Surface),
        distSq ((([[⟨0,0,0⟩]] : V3Matrix).getD 0 []).getD 0 v3default)
            (⟨1, ⟨3,0,0⟩, none⟩ : Surface).bpos ≤
          distSq ((([[⟨0,0,0⟩]] : V3Matrix).getD 0 []).getD 0 v3default)
            sf.bpos) ∧
      (∀ j, j < k →
        distSq ((([[⟨0,0,0⟩]] : V3Matrix).getD 0 []).getD 0 v3default)
            (⟨1, ⟨3,0,0⟩, none⟩ : Surface).bpos <
          distSq ((([[⟨0,0,0⟩]] : V3Matrix).getD 0 []).getD 0 v3default)
            (([⟨1, ⟨3,0,0⟩, none⟩, ⟨2, ⟨4,0,0⟩, none⟩] :
              List Surface).getD j dSurf).bpos)) := by
  have hres : (completeBinning [[⟨0,0,0⟩]]
      [⟨1, ⟨3,0,0⟩, none⟩, ⟨2, ⟨4,0,0⟩, none⟩] emptyGrid).1 0 0 0 =
      some ⟨1, ⟨3,0,0⟩, none⟩ := by
    norm_num [completeBinning, binLoop, cellIndices, fillCell, fillStep,
      updateGrid, distSq, sentinelSq, emptyGrid, List.range_succ]
  exact ⟨⟨rfl, hres⟩,
    nearest_fill_first_argmin _ _ _ 0 0 _ (by decide) (by decide) rfl hres⟩

/-- Claim C3 (code defect evidence): `completeBinning` does not restrict
itself to empty cells — the `sentry` read of the current slot is never
consulted, so a cell already holding a surface from the placement phase is
overwritten whenever another surface is closer to the cell's center. Here
cell `(0,0,0)` holds `sOver1` (9 away from its center) before completion
and holds `sOver2` (sitting exactly at the center) afterwards. -/
theorem completeBinning_overwrites_prefilled :
    gPre 0 0 0 = some sOver1 ∧
    (completeBinning [[⟨0,0,0⟩, ⟨50,0,0⟩, ⟨100,0,0⟩]] [sOver1, sOver2]
        gPre).1 0 0 0 = some sOver2 ∧
    sOver2 ≠ sOver1 := by
  refine ⟨by decide, ?_, by decide⟩
  norm_num [completeBinning, binLoop, cellIndices, fillCell, fillStep,
    updateGrid, distSq, sentinelSq, emptyGrid, gPre, sOver1, sOver2,
    List.range_succ]

/-- Claim C9: for every cell it processes, `registerNeighbourHood` invokes
`registerNeighbours` once per surface of the box cluster; every invocation
carries a list of length at most one (the vector is re-created empty each
iteration); consequently, under the last-write-wins contract, every
element's final registered neighbour set has at most one member. -/
theorem registerNeighbourHood_per_candidate (a : SurfaceArray) :
    (∀ io0 io1 io2 b e, a.grid io2 io1 io0 = some b → b.elem = some e →
      (cellCalls a io0 io1 io2).length =
        (objectCluster a io0 io1 io2).length) ∧
    (∀ p ∈ registerNeighbourHood a, p.2.length ≤ 1) ∧
    (∀ e l, finalNeighbours (registerNeighbourHood a) e = some l →
      l.length ≤ 1) := by
  have hlen : ∀ p ∈ registerNeighbourHood a, p.2.length ≤ 1 := by
    intro p hp
    obtain ⟨io2, _, io1, _, io0, _, hcell⟩ := mem_registerNeighbourHood.mp hp
    obtain ⟨b, e, _, _, nS, _, hpe⟩ := cellCalls_mem hcell
    subst hpe
    dsimp only
    by_cases hne : nS ≠ b
    · rw [if_pos hne]
      cases nS.elem <;> simp
    · rw [if_neg hne]
      simp
  refine ⟨?_, hlen, ?_⟩
  · intro io0 io1 io2 b e hg hb
    simp only [cellCalls, hg, hb, List.length_map]
  · intro e l hfin
    rw [finalNeighbours] at hfin
    cases hlast : ((registerNeighbourHood a).filter
        (fun c => decide (c.1 = e))).getLast? with
    | none => rw [hlast] at hfin; simp at hfin
    | some c =>
      rw [hlast] at hfin
      have hcl : c.2 = l := by simpa using hfin
      have hmem : c ∈ registerNeighbourHood a :=
        List.mem_of_mem_filter (getLast?_is_mem hlast)
      exact hcl ▸ hlen c hmem

/-- Witness for claim C9 at the concrete two-cell array `arr2`: the cell's
call count equals its cluster size, and element 5's final registered list is
`[6]`, of length at most one. -/
theorem registerNeighbourHood_per_candidate_witness :
    (arr2.grid 0 0 0 = some ⟨0, ⟨0, 0, 0⟩, some 5⟩ ∧
      (cellCalls arr2 0 0 0).length = (objectCluster arr2 0 0 0).length) ∧
    (finalNeighbours (registerNeighbourHood arr2) 5 = some [6] ∧
      ([6] : List ℕ).length ≤ 1) :=
  ⟨⟨by decide, (registerNeighbourHood_per_candidate arr2).1 0 0 0
      ⟨0, ⟨0, 0, 0⟩, some 5⟩ 5 (by decide) (by decide)⟩,
   ⟨by decide, (registerNeighbourHood_per_candidate arr2).2.2 5 [6]
      (by decide)⟩⟩

/-- Claim C8 (counterexample): two distinct neighbouring surfaces sharing
detector element 5 make `registerNeighbourHood` pass element 5 as a member
of a neighbour list registered on element 5 itself (the exclusion compares
surfaces, not elements), and element 5's final registered list is `[5]`. -/
theorem self_neighbour_counterexample :
    ((5, [5]) : ℕ × List ℕ) ∈ registerNeighbourHood arrShared ∧
    finalNeighbours (registerNeighbourHood arrShared) 5 = some [5] := by
  decide

/-- Claim C8 (amended): provided distinct stored surfaces carry distinct
associated detector elements, no element is ever passed as a member of a
neighbour list registered on that same element. -/
theorem no_self_neighbour_of_distinct_elements (a : SurfaceArray)
    (hinj : ∀ s ∈ cellsOf a, ∀ t ∈ cellsOf a,
      s.elem.isSome → s.elem = t.elem → s = t) :
    ∀ p ∈ registerNeighbourHood a, p.1 ∉ p.2 := by
  intro p hp hmem
  obtain ⟨io2, h2, io1, h1, io0, h0, hcell⟩ := mem_registerNeighbourHood.mp hp
  obtain ⟨b, e, hg, hb, nS, hnS, hpe⟩ := cellCalls_mem hcell
  subst hpe
  dsimp only at hmem
  by_cases hne : nS ≠ b
  · rw [if_pos hne] at hmem
    cases hnsel : nS.elem with
    | none => simp only [hnsel] at hmem; simp at hmem
    | some e' =>
      simp only [hnsel] at hmem
      have hee : e = e' := List.mem_singleton.mp hmem
      have hbc : b ∈ cellsOf a := mem_cellsOf h2 h1 h0 hg
      have hnc : nS ∈ cellsOf a := objectCluster_mem_cells h0 h1 h2 nS hnS
      apply hne
      apply hinj nS hnc b hbc
      · rw [hnsel]; rfl
      · rw [hnsel, hb, hee]
  · rw [if_neg hne] at hmem
    simp at hmem

/-- Witness for the amended claim C8 at the concrete array `arr2`, whose two
stored surfaces carry the distinct elements 5 and 6. -/
theorem no_self_neighbour_witness :
    (∀ s ∈ cellsOf arr2, ∀ t ∈ cellsOf arr2,
      s.elem.isSome → s.elem = t.elem → s = t) ∧
    ((5, [6]) : ℕ × List ℕ).1 ∉ ((5, [6]) : ℕ × List ℕ).2 :=
  ⟨by decide, no_self_neighbour_of_distinct_elements arr2 (by decide)
    (5, [6]) (by decide)⟩

/-- Claim C1 (code defect evidence): in the spec's 8-surfaces-on-a-cylinder
example state (`arr8`: binsPhi = 8, binsZ = 1, each surface with its own
element), every element's final registered neighbour list has exactly one
member — not the two azimuthal neighbours the spec promises — because the
`neighbourElements` vector is re-created empty on every cluster iteration
and `registerNeighbours` is invoked per candidate, last write winning. -/
theorem cylinder8_final_neighbour_count :
    (List.range 8).map
        (fun k => (finalNeighbours (registerNeighbourHood arr8) k).map
          List.length) =
      List.replicate 8 (some 1) := by
  decide

/-! ### Construction-level facts -/

lemma cylV3Matrix_length (cm : CoordModel) (R minPhi maxPhi halfZ : ℚ)
    (binsPhi binsZ : ℕ) :
    (cylV3Matrix cm R minPhi maxPhi halfZ binsPhi binsZ).length = binsZ := by
  simp [cylV3Matrix]

lemma cylV3Matrix_headD_length (cm : CoordModel) (R minPhi maxPhi halfZ : ℚ)
    (binsPhi binsZ : ℕ) (h : 0 < binsZ) :
    ((cylV3Matrix cm R minPhi maxPhi halfZ binsPhi binsZ).headD []).length =
      binsPhi := by
  obtain ⟨n, rfl⟩ : ∃ n, binsZ = n + 1 := ⟨binsZ - 1, by omega⟩
  rw [cylV3Matrix, List.range_succ_eq_map]
  simp

lemma discV3Matrix_length (cm : CoordModel) (minR maxR minPhi maxPhi : ℚ)
    (binsR binsPhi : ℕ) (z : ℚ) :
    (discV3Matrix cm minR maxR minPhi maxPhi binsR binsPhi z).length =
      binsPhi := by
  simp [discV3Matrix]

lemma discV3Matrix_headD_length (cm : CoordModel) (minR maxR minPhi maxPhi : ℚ)
    (binsR binsPhi : ℕ) (z : ℚ) (h : 0 < binsPhi) :
    ((discV3Matrix cm minR maxR minPhi maxPhi binsR binsPhi z).headD
      []).length = binsR := by
  obtain ⟨n, rfl⟩ : ∃ n, binsPhi = n + 1 := ⟨binsPhi - 1, by omega⟩
  rw [discV3Matrix, List.range_succ_eq_map]
  simp

/-- Claim C10: `surfaceArrayOnCylinder` on an empty surface list with at
least one bin per axis does not fail — the placement loop and the inner
completion loop range over the empty list and assign nothing, so the
returned array's grid is null everywhere. -/
theorem cylinder_empty_surfaces_all_null (cm : CoordModel)
    (R minPhi maxPhi halfZ : ℚ) (binsPhi binsZ : ℕ)
    (hphi : 1 ≤ binsPhi) (hz : 1 ≤ binsZ) (i2 i1 i0 : ℕ) :
    (surfaceArrayOnCylinder cm [] R minPhi maxPhi halfZ binsPhi
      binsZ).1.grid i2 i1 i0 = none := by
  show (completeBinning (cylV3Matrix cm R minPhi maxPhi halfZ binsPhi binsZ)
      []
      (prefillGrid cm (cylBinUtility minPhi maxPhi halfZ binsPhi binsZ) []
        emptyGrid)).1 i2 i1 i0 = none
  have hdim :
      (cylV3Matrix cm R minPhi maxPhi halfZ binsPhi binsZ).length *
        ((cylV3Matrix cm R minPhi maxPhi halfZ binsPhi binsZ).headD
          []).length ≠ ([] : List Surface).length := by
    rw [cylV3Matrix_length,
      cylV3Matrix_headD_length _ _ _ _ _ _ _ (by omega)]
    simp only [List.length_nil]
    exact Nat.mul_ne_zero (by omega) (by omega)
  by_cases h2 : i2 = 0
  · subst h2
    by_cases hin :
        i1 < (cylV3Matrix cm R minPhi maxPhi halfZ binsPhi binsZ).length ∧
        i0 < ((cylV3Matrix cm R minPhi maxPhi halfZ binsPhi
          binsZ).headD []).length
    · rw [completeBinning_cell _ _ _ _ _ hdim hin.1 hin.2]
      rfl
    · rw [completeBinning_untouched _ _ _ _ _ _ hdim (Or.inr hin)]
      rfl
  · rw [completeBinning_untouched _ _ _ _ _ _ hdim (Or.inl h2)]
    rfl

/-- Witness for claim C10 at concrete parameters. -/
theorem cylinder_empty_surfaces_all_null_witness :
    ((1 : ℕ) ≤ 2 ∧ (1 : ℕ) ≤ 1) ∧
    (surfaceArrayOnCylinder cmTriv [] 3 0 7 2 2 1).1.grid 0 0 1 = none :=
  ⟨⟨by decide, by decide⟩,
    cylinder_empty_surfaces_all_null cmTriv 3 0 7 2 2 1 (by decide)
      (by decide) 0 0 1⟩

/-- Claim C2 (counterexample): a cylinder construction that returns a
`SurfaceArray` whose grid has an in-extent cell holding no surface — the
empty input list (binsPhi = 2, binsZ = 3) leaves cell `(0,0,0)` null. -/
theorem grid_coverage_counterexample :
    (surfaceArrayOnCylinder cmTriv [] 10 0 8 1 2 3).1.d2 = 1 ∧
    (surfaceArrayOnCylinder cmTriv [] 10 0 8 1 2 3).1.d1 = 3 ∧
    (surfaceArrayOnCylinder cmTriv [] 10 0 8 1 2 3).1.d0 = 2 ∧
    (surfaceArrayOnCylinder cmTriv [] 10 0 8 1 2 3).1.grid 0 0 0 = none := by
  refine ⟨rfl, rfl, rfl, ?_⟩
  decide

/-- Claim C2 (amended): every in-extent cell of a returned grid (cylinder or
disc) holds a non-null surface, provided the bin-count product differs from
the surface count (otherwise completion is a fast-path no-op and placement
collisions can leave holes) and some input surface lies strictly within the
`10e10` sentinel distance of the cell's center (with an empty list — or
only surfaces at least the sentinel away — the minimum search assigns
nothing). -/
theorem grid_coverage_amended :
    (∀ (cm : CoordModel) (surfaces : List Surface)
        (R minPhi maxPhi halfZ : ℚ) (binsPhi binsZ i1 i0 : ℕ),
      binsZ * binsPhi ≠ surfaces.length →
      i1 < binsZ → i0 < binsPhi →
      (∃ sf ∈ surfaces,
        distSq (((cylV3Matrix cm R minPhi maxPhi halfZ binsPhi
            binsZ).getD i1 []).getD i0 v3default) sf.bpos < sentinelSq) →
      (surfaceArrayOnCylinder cm surfaces R minPhi maxPhi halfZ binsPhi
        binsZ).1.grid 0 i1 i0 ≠ none) ∧
    (∀ (cm : CoordModel) (surfaces : List Surface)
        (minR maxR minPhi maxPhi : ℚ) (binsR binsPhi i1 i0 : ℕ),
      binsPhi * binsR ≠ surfaces.length →
      i1 < binsPhi → i0 < binsR →
      (∃ sf ∈ surfaces,
        distSq (((discV3Matrix cm minR maxR minPhi maxPhi binsR binsPhi
            (discZ surfaces)).getD i1 []).getD i0 v3default) sf.bpos <
          sentinelSq) →
      (surfaceArrayOnDisc cm surfaces minR maxR minPhi maxPhi binsR
        binsPhi).1.grid 0 i1 i0 ≠ none) := by
  constructor
  · intro cm surfaces R minPhi maxPhi halfZ binsPhi binsZ i1 i0 hne hi1 hi0
      hnear
    show (completeBinning
        (cylV3Matrix cm R minPhi maxPhi halfZ binsPhi binsZ) surfaces
        (prefillGrid cm (cylBinUtility minPhi maxPhi halfZ binsPhi binsZ)
          surfaces emptyGrid)).1 0 i1 i0 ≠ none
    have hdim :
        (cylV3Matrix cm R minPhi maxPhi halfZ binsPhi binsZ).length *
          ((cylV3Matrix cm R minPhi maxPhi halfZ binsPhi binsZ).headD
            []).length ≠ surfaces.length := by
      rw [cylV3Matrix_length,
        cylV3Matrix_headD_length _ _ _ _ _ _ _ (by omega)]
      exact hne
    rw [completeBinning_cell _ _ _ _ _ hdim
      (by rw [cylV3Matrix_length]; exact hi1)
      (by rw [cylV3Matrix_headD_length _ _ _ _ _ _ _ (by omega)]; exact hi0)]
    exact fillCell_some_of_near _ _ _ hnear
  · intro cm surfaces minR maxR minPhi maxPhi binsR binsPhi i1 i0 hne hi1 hi0
      hnear
    show (completeBinning
        (discV3Matrix cm minR maxR minPhi maxPhi binsR binsPhi
          (discZ surfaces)) surfaces
        (prefillGrid cm (discBinUtility minR maxR minPhi maxPhi binsR
          binsPhi) surfaces emptyGrid)).1 0 i1 i0 ≠ none
    have hdim :
        (discV3Matrix cm minR maxR minPhi maxPhi binsR binsPhi
          (discZ surfaces)).length *
          ((discV3Matrix cm minR maxR minPhi maxPhi binsR binsPhi
            (discZ surfaces)).headD []).length ≠ surfaces.length := by
      rw [discV3Matrix_length,
        discV3Matrix_headD_length _ _ _ _ _ _ _ _ (by omega)]
      exact hne
    have hh1 : i1 < (discV3Matrix cm minR maxR minPhi maxPhi binsR binsPhi
        (discZ surfaces)).length := by
      rw [discV3Matrix_length]; exact hi1
    have hh0 : i0 < ((discV3Matrix cm minR maxR minPhi maxPhi binsR binsPhi
        (discZ surfaces)).headD []).length := by
      rw [discV3Matrix_headD_length _ _ _ _ _ _ _ _ (by omega)]; exact hi0
    rw [completeBinning_cell _ _ _ _ _ hdim hh1 hh0]
    exact fillCell_some_of_near _ _ _ hnear

/-- Witness for the amended claim C2: one surface at the origin, a 1 × 2
cylinder grid of degenerate radius 0 — the surface is within the sentinel
of every center and cell `(0,0,0)` ends non-null. -/
theorem grid_coverage_amended_witness :
    ((2 * 1 ≠ ([surfA] : List Surface).length) ∧
      (∃ sf ∈ ([surfA] : List Surface),
        distSq (((cylV3Matrix cmTriv 0 0 0 0 1 2).getD 0 []).getD 0
          v3default) sf.bpos < sentinelSq)) ∧
    (surfaceArrayOnCylinder cmTriv [surfA] 0 0 0 0 1 2).1.grid 0 0 0 ≠
      none := by
  have hex : ∃ sf ∈ ([surfA] : List Surface),
      distSq (((cylV3Matrix cmTriv 0 0 0 0 1 2).getD 0 []).getD 0
        v3default) sf.bpos < sentinelSq := by
    refine ⟨surfA, List.mem_singleton_self _, ?_⟩
    norm_num [cylV3Matrix, centerValue, cmTriv, surfA, distSq, sentinelSq,
      v3default, List.range_succ]
  exact ⟨⟨by decide, hex⟩,
    grid_coverage_amended.1 cmTriv [surfA] 0 0 0 0 1 2 0 0 (by decide)
      (by decide) (by decide) hex⟩

/-- Claim C4 (code defect evidence): `surfaceArrayOnDisc` applied to an
empty surface list performs no emptiness check and returns an array (with
every cell null) instead of failing with an "empty input" error; the mean-z
computation divides by the surface count with no guard (`0.0 / 0`, a NaN in
the C++ double arithmetic, totalized to `0` in this model). -/
theorem disc_empty_input_returns_array :
    (surfaceArrayOnDisc cmTriv [] 5 10 0 7 1 4).1.grid 0 0 0 = none ∧
    cellsOf (surfaceArrayOnDisc cmTriv [] 5 10 0 7 1 4).1 = [] := by
  decide
